import Mathlib

/-! # better-breeze-checkin: check-in codec and batch check-in, verified

Shallow embedding of `src/api/codes.py` (the check-in code codec) and of the
`batch_checkin` endpoint of `src/api/server.py`, with theorems settling the
specification's claims about them. Python strings are modelled as `List Char`,
the non-negative numeric roster ids as `Nat`, bit packing as arithmetic with
explicit `% 2 ^ 15` (the packed fields are disjoint, so `<< 15 |` is
`* 2 ^ 15 +` and `& 0x7FFF` is `% 2 ^ 15`), and a Python function that can
raise is modelled as returning `Option`/`Except`. -/

namespace BreezeCheckin

/-! ## The codec (`src/api/codes.py`) -/

/-- `ALPHABET = "23456789ABCDEFGHJKMNPQRSTUVWXYZ"` (codes.py line 23): the 31
code symbols, visually ambiguous 0/O and 1/I/L removed. -/
def ALPHABET : List Char := "23456789ABCDEFGHJKMNPQRSTUVWXYZ".toList

/-- `BASE = len(ALPHABET)` (codes.py line 24), that is 31. -/
def BASE : Nat := ALPHABET.length

/-- The nibble loop of `_checksum` (codes.py lines 29-32):
`while data: total += data & 0xF; data >>= 4`, one iteration per hex digit,
with the iteration bound passed as explicit fuel so that the definition is
structurally recursive. `nibbleSumLoop` below is the same loop by well-founded
recursion on `data`, and `nibbleSumAux_eq_loop` proves the two agree whenever
the fuel covers every hex digit of `data`. -/
def nibbleSumAux : Nat → Nat → Nat
  | 0, _ => 0
  | fuel + 1, data => if data = 0 then 0 else data % 16 + nibbleSumAux fuel (data / 16)

/-- The nibble loop of `_checksum`, written exactly as the Python `while`
loop: it terminates because `data` shrinks at every iteration. -/
def nibbleSumLoop (data : Nat) : Nat :=
  if h : data = 0 then 0 else data % 16 + nibbleSumLoop (data / 16)
termination_by data
decreasing_by exact Nat.div_lt_self (Nat.pos_of_ne_zero h) (by omega)

/-- `_checksum(data)` (codes.py lines 27-33): sum of the hex nibbles of
`data`, mod `BASE`. Both call sites of `_checksum` pass a packed value below
`2 ^ 30 ≤ 16 ^ 8`, so fuel 8 runs the nibble loop to completion on every
reachable input (`nibbleSumAux_eq_loop` below makes this exact). The fueled
form keeps the function computable by the kernel. -/
def checksum (data : Nat) : Nat := nibbleSumAux 8 data % BASE

/-- The base-31 digit loop of `encode_checkin_code` (codes.py lines 50-53):
`for _ in range(6): chars.append(temp % BASE); temp //= BASE`, least
significant digit first, as digit indices. -/
def digitsLSB : Nat → Nat → List Nat
  | 0, _ => []
  | k + 1, temp => temp % BASE :: digitsLSB k (temp / BASE)

/-- `packed = ((iid & 0x7FFF) << 15) | (pid & 0x7FFF)` (codes.py line 46):
the two 15-bit fields are disjoint, so the bitwise packing is
`(iid % 2 ^ 15) * 2 ^ 15 + pid % 2 ^ 15`. -/
def packIds (person_id instance_id : Nat) : Nat :=
  (instance_id % 32768) * 32768 + person_id % 32768

/-- The 7 code symbols of `encode_checkin_code` (codes.py lines 49-61): the 6
base-31 digits of `packed`, reversed to most-significant-first, then the
checksum symbol `ALPHABET[_checksum(packed)]` appended. -/
def codeSymbols (person_id instance_id : Nat) : List Char :=
  let packed := packIds person_id instance_id
  ((digitsLSB 6 packed).reverse ++ [checksum packed]).map (fun i => ALPHABET.getD i ' ')

/-- `encode_checkin_code(person_id, instance_id)` (codes.py lines 36-62):
the 7 symbols rendered as `f"{code[:3]}-{code[3:]}"`. -/
def encode_checkin_code (person_id instance_id : Nat) : List Char :=
  let code := codeSymbols person_id instance_id
  code.take 3 ++ '-' :: code.drop 3

/-- `str.index` on a character list: first index of `c`, `none` standing for
Python's raised `ValueError`. -/
def charIndex : List Char → Char → Option Nat
  | [], _ => none
  | a :: as, c => if a = c then some 0 else (charIndex as c).map (· + 1)

/-- `[ALPHABET.index(c) for c in code]` (codes.py line 78), with the
`ValueError` of a symbol outside the alphabet mapped to `none`. -/
def alphabetIndices : List Char → Option (List Nat)
  | [] => some []
  | c :: cs =>
    match charIndex ALPHABET c, alphabetIndices cs with
    | some i, some is => some (i :: is)
    | _, _ => none

/-- `code.upper().replace("-", "").replace(" ", "")` (codes.py line 72).
`Char.toUpper` models `str.upper` on the ASCII input the codec deals in. -/
def normalize (s : List Char) : List Char :=
  (s.map Char.toUpper).filter (fun c => c != '-' && c != ' ')

/-- `packed = 0; for idx in data_indices: packed = packed * BASE + idx`
(codes.py lines 87-89): the 30-bit value, most-significant digit first. -/
def packFromIndices (data_indices : List Nat) : Nat :=
  data_indices.foldl (fun packed idx => packed * BASE + idx) 0

/-- The decoded dict `{"instance_id": ..., "person_id": ...}` of codes.py
lines 99-102. -/
structure DecodeResult where
  instance_id : Nat
  person_id : Nat
deriving DecidableEq, Repr

/-- `decode_checkin_code(code)` (codes.py lines 65-102): normalize, require
exactly 7 alphabet symbols, recompute the checksum over the 30-bit value of
the first 6 symbols and compare it to the 7th, then unpack
`person_id = packed & 0x7FFF` and `instance_id = (packed >> 15) & 0x7FFF`. -/
def decode_checkin_code (code : List Char) : Option DecodeResult :=
  let code := normalize code
  if code.length ≠ 7 then none else
  match alphabetIndices code with
  | none => none
  | some indices =>
    match indices.get? 6 with
    | none => none
    | some checksum_idx =>
      let packed := packFromIndices (indices.take 6)
      if checksum packed ≠ checksum_idx then none
      else some ⟨(packed / 32768) % 32768, packed % 32768⟩

/-- `validate_checkin_code(code, expected_instance_id, expected_person_id)`
(codes.py lines 105-130): decode, short-circuit on `None`, then reject when a
supplied expected id disagrees with the decoded field modulo `2 ^ 15`
(`(iid & 0x7FFF) != decoded[...]`). -/
def validate_checkin_code (code : List Char)
    (expected_instance_id expected_person_id : Option Nat) : Option DecodeResult :=
  match decode_checkin_code code with
  | none => none
  | some decoded =>
    if expected_instance_id.any (fun iid => iid % 32768 != decoded.instance_id) then none
    else if expected_person_id.any (fun pid => pid % 32768 != decoded.person_id) then none
    else some decoded

/-! ## Single-symbol corruption (spec §8, mutation of one code symbol) -/

/-- All strings obtained from `code` by replacing exactly one non-hyphen
character with a different symbol of the 31-character alphabet. -/
def mutationsOf (code : List Char) : List (List Char) :=
  (List.range code.length).flatMap fun i =>
    if code.getD i ' ' = '-' then []
    else (ALPHABET.filter (fun a => a != code.getD i ' ')).map (fun a => code.set i a)

/-! ## The batch check-in endpoint (`src/api/server.py`)

`breeze.add_attendance` and `printer.print_labels` are remote effects; the
embedding passes them as oracles. `gw i` is the environment's response to
the i-th attendance call of the batch: the boolean the call returned, or the
message of the exception it raised (`printer.print_labels`, lines 180-224 of
printer.py, catches every exception itself and returns a boolean, so a plain
`Bool`-valued oracle is exact for it). -/

/-- `MAX_BATCH_SIZE = 15` (server.py line 18). -/
def MAX_BATCH_SIZE : Nat := 15

/-- One entry of `BatchCheckinRequest.people` (server.py lines 57-60). -/
structure CheckinPerson where
  person_id : String
  name : String
  code : String
deriving DecidableEq, Repr

/-- `LabelData` of printer.py lines 23-27 (`code` and `extra` default to `""`
at the Python constructor; construction sites below pass them explicitly). -/
structure LabelData where
  name : String
  code : String
  extra : String
deriving DecidableEq, Repr

/-- The body of `BatchCheckinRequest` (server.py lines 63-67). -/
structure BatchCheckinRequest where
  instance_id : String
  people : List CheckinPerson
  extra_labels : List LabelData
  print_labels : Bool
deriving Repr

/-- One per-person result dict of `_checkin_one` (server.py lines 181-184):
`{"person_id": ..., "success": ..., "error": ...}`, `error` absent on
success. -/
structure CheckinOutcome where
  person_id : String
  success : Bool
  error : Option String
deriving DecidableEq, Repr

/-- `HTTPException(status_code=..., detail=...)`. -/
structure HTTPError where
  status_code : Nat
  detail : String
deriving DecidableEq, Repr

/-- The response dict of `batch_checkin` (server.py lines 205-208). -/
structure BatchCheckinResponse where
  results : List CheckinOutcome
  labels_printed : Nat
deriving DecidableEq, Repr

/-- What one `breeze.add_attendance` call did: returned a boolean, or raised
an exception carrying `str(e)`. -/
inductive AddResult where
  | ok (success : Bool)
  | exn (msg : String)
deriving DecidableEq, Repr

/-- `_checkin_one(person)` (server.py lines 175-184), given what its
`add_attendance` call did: a `True` return is success, a `False` return is
`{"success": False, "error": "Failed"}`, an exception is caught and becomes
`{"success": False, "error": str(e)}` — never propagated. -/
def checkinOne (person : CheckinPerson) : AddResult → CheckinOutcome
  | .ok true => ⟨person.person_id, true, none⟩
  | .ok false => ⟨person.person_id, false, some "Failed"⟩
  | .exn e => ⟨person.person_id, false, some e⟩

/-- `await asyncio.gather(*[_checkin_one(p) for p in request.people])`
(server.py line 187): `gather` runs the calls concurrently and returns their
results in input order regardless of completion order, so the result list is
the input list mapped through `_checkin_one`, the i-th entry paired with the
outcome `gw i` of the i-th call. -/
def gatherResults (gw : Nat → AddResult) : Nat → List CheckinPerson → List CheckinOutcome
  | _, [] => []
  | i, p :: ps => checkinOne p (gw i) :: gatherResults gw (i + 1) ps

/-- The label list built by `batch_checkin` (server.py lines 189-199): when
`print_labels` is set, the entries of `people` whose `person_id` lies in the
set of successful ids (a Python `set`; membership is modelled by list
membership of the collected ids), each as `LabelData(name=..., code=...)`,
followed by `extra_labels`; otherwise the list stays empty. -/
def labelsToPrint (request : BatchCheckinRequest) (results : List CheckinOutcome) :
    List LabelData :=
  if request.print_labels then
    let successful_ids := (results.filter (fun r => r.success)).map (fun r => r.person_id)
    ((request.people.filter (fun p => successful_ids.contains p.person_id)).map
        (fun p => LabelData.mk p.name p.code "")) ++ request.extra_labels
  else []

/-- `batch_checkin(request)` (server.py lines 163-208): reject an oversized
batch with HTTP 400 before any remote call, otherwise gather the per-person
outcomes, build the label list, submit it to the printer when non-empty
(`pr` is the `printer.print_labels` outcome), and report
`len(labels_to_print) if print_success else 0` printed labels. -/
def batch_checkin (request : BatchCheckinRequest) (gw : Nat → AddResult)
    (pr : List LabelData → Bool) : Except HTTPError BatchCheckinResponse :=
  if request.people.length > MAX_BATCH_SIZE then
    .error ⟨400, "Batch size " ++ toString request.people.length ++
      " exceeds max of " ++ toString MAX_BATCH_SIZE⟩
  else
    let results := gatherResults gw 0 request.people
    let labels_to_print := labelsToPrint request results
    let print_success := if labels_to_print.isEmpty then false else pr labels_to_print
    .ok ⟨results, if print_success then labels_to_print.length else 0⟩

/-! ## Concrete fixtures used by the witnesses of the batch claims -/

/-- A two-person batch request with one extra parent label. -/
def reqEx : BatchCheckinRequest :=
  ⟨"500", [⟨"101", "Ada", "229-QRMS"⟩, ⟨"102", "Ben", "22A-33ZD"⟩],
    [⟨"Parent", "", "Ada, Ben"⟩], true⟩

/-- A gateway run where the first call returns `True` and every other call
raises. -/
def gwEx : Nat → AddResult := fun i => if i = 0 then .ok true else .exn "boom"

/-- A printer whose submission succeeds. -/
def prEx : List LabelData → Bool := fun _ => true

/-- A printer whose submission fails. -/
def prFail : List LabelData → Bool := fun _ => false

/-- A batch holding the same person twice (same `person_id`, different label
text). -/
def reqDup : BatchCheckinRequest :=
  ⟨"500", [⟨"101", "Ada", "AAA-AAAA"⟩, ⟨"101", "Ada", "BBB-BBBB"⟩], [], true⟩

/-- A gateway run where only the second call succeeds. -/
def gwDup : Nat → AddResult := fun i => if i = 1 then .ok true else .ok false

/-! ## Alphabet, checksum and digit lemmas -/

theorem BASE_eq : BASE = 31 := rfl

theorem alphabet_getD_mem : ∀ k, k < 31 → ALPHABET.getD k ' ' ∈ ALPHABET := by decide

theorem alphabet_charIndex_getD :
    ∀ k, k < 31 → charIndex ALPHABET (ALPHABET.getD k ' ') = some k := by decide

theorem alphabet_toUpper : ∀ c ∈ ALPHABET, c.toUpper = c := by decide

theorem alphabet_kept : ∀ c ∈ ALPHABET, (c != '-' && c != ' ') = true := by decide

theorem nibbleSumAux_zero_data : ∀ fuel, nibbleSumAux fuel 0 = 0 := by
  intro fuel
  cases fuel <;> simp [nibbleSumAux]

/-- The fueled nibble sum runs the Python `while` loop to completion as soon
as the fuel covers every hex digit of `data`. -/
theorem nibbleSumAux_eq_loop :
    ∀ fuel data, data < 16 ^ fuel → nibbleSumAux fuel data = nibbleSumLoop data := by
  intro fuel
  induction fuel with
  | zero =>
    intro data h
    rw [pow_zero] at h
    have hd : data = 0 := by omega
    subst hd
    rw [nibbleSumLoop]
    simp [nibbleSumAux]
  | succ f ih =>
    intro data h
    by_cases hd : data = 0
    · subst hd
      rw [nibbleSumLoop]
      simp [nibbleSumAux]
    · rw [nibbleSumLoop, dif_neg hd]
      simp only [nibbleSumAux, if_neg hd]
      congr 1
      apply ih
      rw [pow_succ] at h
      omega

theorem checksum_lt (data : Nat) : checksum data < 31 :=
  Nat.mod_lt _ (by decide)

theorem charIndex_eq_none (l : List Char) (c : Char) : charIndex l c = none ↔ c ∉ l := by
  induction l with
  | nil => simp [charIndex]
  | cons a as ih =>
    by_cases hac : a = c
    · subst hac
      simp [charIndex]
    · simp [charIndex, hac, ih, Ne.symm hac]

theorem charIndex_getD (l : List Char) (c : Char) :
    ∀ k, charIndex l c = some k → l.getD k ' ' = c := by
  induction l with
  | nil => intro k h; simp [charIndex] at h
  | cons a as ih =>
    intro k h
    by_cases hac : a = c
    · subst hac
      simp [charIndex] at h
      subst h
      rfl
    · simp only [charIndex, if_neg hac, Option.map_eq_some'] at h
      obtain ⟨m, hm, hk⟩ := h
      subst hk
      simpa using ih m hm

theorem alphabetIndices_length :
    ∀ (l : List Char) (is : List Nat), alphabetIndices l = some is → is.length = l.length := by
  intro l
  induction l with
  | nil =>
    intro is h
    simp only [alphabetIndices, Option.some.injEq] at h
    subst h
    rfl
  | cons c cs ih =>
    intro is h
    cases hci : charIndex ALPHABET c with
    | none => simp [alphabetIndices, hci] at h
    | some i =>
      cases hai : alphabetIndices cs with
      | none => simp [alphabetIndices, hci, hai] at h
      | some is' =>
        simp only [alphabetIndices, hci, hai, Option.some.injEq] at h
        subst h
        simp [ih is' hai]

theorem alphabetIndices_exists_iff (l : List Char) :
    (∃ is, alphabetIndices l = some is) ↔ ∀ c ∈ l, c ∈ ALPHABET := by
  induction l with
  | nil => simp [alphabetIndices]
  | cons c cs ih =>
    rw [List.forall_mem_cons, ← ih]
    cases hci : charIndex ALPHABET c with
    | none =>
      have hc : c ∉ ALPHABET := (charIndex_eq_none _ _).mp hci
      simp [alphabetIndices, hci, hc]
    | some i =>
      have hc : c ∈ ALPHABET := by
        by_contra hcn
        rw [(charIndex_eq_none _ _).mpr hcn] at hci
        exact Option.noConfusion hci
      cases hai : alphabetIndices cs with
      | none => simp [alphabetIndices, hci, hai, hc]
      | some is' => simp [alphabetIndices, hci, hai, hc]

theorem alphabetIndices_map_getD (xs : List Nat) (h : ∀ k ∈ xs, k < 31) :
    alphabetIndices (xs.map (fun i => ALPHABET.getD i ' ')) = some xs := by
  induction xs with
  | nil => simp [alphabetIndices]
  | cons k ks ih =>
    simp only [List.map_cons, alphabetIndices]
    rw [alphabet_charIndex_getD k (h k (by simp)), ih (fun j hj => h j (by simp [hj]))]

theorem digitsLSB_length (k : Nat) : ∀ temp, (digitsLSB k temp).length = k := by
  induction k with
  | zero => intro temp; rfl
  | succ n ih => intro temp; simp [digitsLSB, ih]

theorem digitsLSB_lt (k : Nat) : ∀ temp, ∀ d ∈ digitsLSB k temp, d < 31 := by
  induction k with
  | zero => intro temp d hd; simp [digitsLSB] at hd
  | succ n ih =>
    intro temp d hd
    simp only [digitsLSB, List.mem_cons] at hd
    rcases hd with h | h
    · subst h; exact Nat.mod_lt _ (by decide)
    · exact ih _ d h

theorem packFromIndices_append (l : List Nat) (d : Nat) :
    packFromIndices (l ++ [d]) = packFromIndices l * BASE + d := by
  simp [packFromIndices, List.foldl_append]

/-- The decoder's fold over the base-31 digits of `temp`, most significant
first, recovers `temp` modulo `31 ^ k`: the encoder's digit loop keeps only
that residue. -/
theorem packFromIndices_reverse_digits (k : Nat) :
    ∀ temp, packFromIndices (digitsLSB k temp).reverse = temp % 31 ^ k := by
  induction k with
  | zero => intro temp; simp [digitsLSB, packFromIndices, Nat.mod_one]
  | succ n ih =>
    intro temp
    simp only [digitsLSB, List.reverse_cons]
    rw [packFromIndices_append, ih (temp / BASE), BASE_eq, pow_succ']
    rw [Nat.mod_mul]
    omega

/-! ## Normalization and the shape of encoded codes -/

theorem map_toUpper_of_alpha (l : List Char) (h : ∀ c ∈ l, c ∈ ALPHABET) :
    l.map Char.toUpper = l := by
  induction l with
  | nil => rfl
  | cons c cs ih =>
    simp only [List.map_cons]
    rw [alphabet_toUpper c (h c (by simp)), ih (fun x hx => h x (by simp [hx]))]

theorem filter_of_alpha (l : List Char) (h : ∀ c ∈ l, c ∈ ALPHABET) :
    l.filter (fun c => c != '-' && c != ' ') = l := by
  induction l with
  | nil => rfl
  | cons c cs ih =>
    rw [List.filter_cons, if_pos (alphabet_kept c (h c (by simp))),
      ih (fun x hx => h x (by simp [hx]))]

/-- Normalizing a displayed code `sss-ssss` whose symbols are alphabet
symbols strips the hyphen and returns the 7 symbols unchanged. -/
theorem normalize_of_symbols (chars : List Char) (h : ∀ c ∈ chars, c ∈ ALPHABET) :
    normalize (chars.take 3 ++ '-' :: chars.drop 3) = chars := by
  unfold normalize
  rw [List.map_append, List.map_cons,
    map_toUpper_of_alpha _ (fun c hc => h c (List.take_subset 3 chars hc)),
    map_toUpper_of_alpha _ (fun c hc => h c (List.drop_subset 3 chars hc)),
    show '-'.toUpper = '-' from by decide,
    List.filter_append, List.filter_cons,
    if_neg (by decide),
    filter_of_alpha _ (fun c hc => h c (List.take_subset 3 chars hc)),
    filter_of_alpha _ (fun c hc => h c (List.drop_subset 3 chars hc)),
    List.take_append_drop]

theorem codeSymbols_length (pid iid : Nat) : (codeSymbols pid iid).length = 7 := by
  unfold codeSymbols
  simp [digitsLSB_length]

theorem codeSymbols_mem (pid iid : Nat) : ∀ c ∈ codeSymbols pid iid, c ∈ ALPHABET := by
  unfold codeSymbols
  intro c hc
  simp only [List.mem_map, List.mem_append, List.mem_reverse, List.mem_singleton] at hc
  obtain ⟨i, hi, rfl⟩ := hc
  apply alphabet_getD_mem
  rcases hi with h | rfl
  · exact digitsLSB_lt 6 _ i h
  · exact checksum_lt _

theorem normalize_encode (pid iid : Nat) :
    normalize (encode_checkin_code pid iid) = codeSymbols pid iid :=
  normalize_of_symbols _ (codeSymbols_mem pid iid)

theorem alphabetIndices_codeSymbols (pid iid : Nat) :
    alphabetIndices (codeSymbols pid iid) =
      some ((digitsLSB 6 (packIds pid iid)).reverse ++ [checksum (packIds pid iid)]) := by
  unfold codeSymbols
  apply alphabetIndices_map_getD
  intro k hk
  simp only [List.mem_append, List.mem_reverse, List.mem_singleton] at hk
  rcases hk with h | rfl
  · exact digitsLSB_lt 6 _ k h
  · exact checksum_lt _

/-- What decoding an encoded code comes to: the decoder reconstructs
`packed % 31 ^ 6` (the digit loop emits only 6 base-31 digits, `31 ^ 6` is
below `2 ^ 30`), and succeeds exactly when that residue's checksum matches
the checksum of the full packed value. -/
theorem decode_encode_eq (pid iid : Nat) :
    decode_checkin_code (encode_checkin_code pid iid) =
      if checksum (packIds pid iid % 31 ^ 6) = checksum (packIds pid iid)
      then some ⟨packIds pid iid % 31 ^ 6 / 32768 % 32768, packIds pid iid % 31 ^ 6 % 32768⟩
      else none := by
  have hrev : (digitsLSB 6 (packIds pid iid)).reverse.length = 6 := by
    simp [digitsLSB_length]
  have hget :
      ((digitsLSB 6 (packIds pid iid)).reverse ++ [checksum (packIds pid iid)]).get? 6 =
        some (checksum (packIds pid iid)) := by
    rw [← hrev]
    exact List.get?_concat_length _ _
  have htake :
      ((digitsLSB 6 (packIds pid iid)).reverse ++ [checksum (packIds pid iid)]).take 6 =
        (digitsLSB 6 (packIds pid iid)).reverse := by
    rw [← hrev]
    exact List.take_left _ _
  unfold decode_checkin_code
  simp only [normalize_encode, codeSymbols_length, alphabetIndices_codeSymbols, hget, htake,
    packFromIndices_reverse_digits]
  by_cases hc : checksum (packIds pid iid % 31 ^ 6) = checksum (packIds pid iid) <;>
    simp [hc]

/-- Round trip below the 6-digit capacity: whenever the packed value fits in
the 6 base-31 digits the encoder emits, decoding recovers both ids mod
`2 ^ 15`. -/
theorem decode_encode_of_lt (pid iid : Nat) (h : packIds pid iid < 31 ^ 6) :
    decode_checkin_code (encode_checkin_code pid iid) =
      some ⟨iid % 32768, pid % 32768⟩ := by
  rw [decode_encode_eq, Nat.mod_eq_of_lt h, if_pos rfl]
  have hpack : packIds pid iid = (iid % 32768) * 32768 + pid % 32768 := rfl
  simp only [hpack, Option.some.injEq, DecodeResult.mk.injEq]
  omega

theorem charIndex_isSome_of_mem (l : List Char) (c : Char) (h : c ∈ l) :
    ∃ i, charIndex l c = some i := by
  cases hci : charIndex l c with
  | none => exact absurd ((charIndex_eq_none _ _).mp hci) (by simp [h])
  | some i => exact ⟨i, rfl⟩

theorem alphabetIndices_append (l₁ l₂ : List Char) :
    ∀ is₁ is₂, alphabetIndices l₁ = some is₁ → alphabetIndices l₂ = some is₂ →
      alphabetIndices (l₁ ++ l₂) = some (is₁ ++ is₂) := by
  induction l₁ with
  | nil =>
    intro is₁ is₂ h₁ h₂
    simp only [alphabetIndices, Option.some.injEq] at h₁
    subst h₁
    simpa using h₂
  | cons c cs ih =>
    intro is₁ is₂ h₁ h₂
    cases hci : charIndex ALPHABET c with
    | none => simp [alphabetIndices, hci] at h₁
    | some i =>
      cases hai : alphabetIndices cs with
      | none => simp [alphabetIndices, hci, hai] at h₁
      | some is' =>
        simp only [alphabetIndices, hci, hai, Option.some.injEq] at h₁
        subst h₁
        simp [alphabetIndices, hci, ih is' is₂ hai h₂]

theorem list_eq_seven {α : Type} (l : List α) (h : l.length = 7) :
    ∃ a b c d e f g, l = [a, b, c, d, e, f, g] := by
  rcases l with _ | ⟨a, _ | ⟨b, _ | ⟨c, _ | ⟨d, _ | ⟨e, _ | ⟨f, _ | ⟨g, _ | ⟨x, t⟩⟩⟩⟩⟩⟩⟩⟩
  all_goals first
  | exact ⟨_, _, _, _, _, _, _, rfl⟩
  | simp at h

/-! ## The claims about the codec -/

/-- Claim C1. The claimed round-trip law `Decode(Encode(person_id,
instance_id)) = {person_id, instance_id}` over the full 15-bit range of both
fields fails: the encoder's digit loop emits 6 base-31 digits, and
`31 ^ 6 = 887503681 < 2 ^ 30`, so packed values of `31 ^ 6` and above are
silently truncated, against codes.py's own docstring ("Total: 30 bits ->
6 base30 chars + 1 checksum"). At `person_id = 15169`, `instance_id = 27084`
the packed value is exactly `31 ^ 6`; the code comes out as `222-222H` and
decoding it fails the checksum, returning `None` instead of the encoded
pair. -/
theorem c1_roundtrip_fails_at_packed_capacity :
    decode_checkin_code (encode_checkin_code 15169 27084) = none ∧
    encode_checkin_code 15169 27084 = "222-222H".toList ∧
    (27084 % 32768) * 32768 + 15169 % 32768 = 31 ^ 6 := by decide

/-- Claim C2. `decode_checkin_code` returns a decoded value exactly when,
after upper-casing and deleting hyphens and spaces, the remainder is 7
symbols of the 31-character alphabet whose 7th symbol's index equals the
nibble-sum checksum of the 30-bit value reconstructed most-significant-first
from the first 6 symbols; in every other case (wrong length, foreign symbol,
checksum mismatch) it returns `none` — the embedding is a total function, so
no error escapes. -/
theorem c2_decode_accepts_exactly_checksummed_codes (s : List Char) :
    (decode_checkin_code s).isSome = true ↔
      ((normalize s).length = 7 ∧ (∀ c ∈ normalize s, c ∈ ALPHABET) ∧
        ∃ idxs, alphabetIndices (normalize s) = some idxs ∧
          idxs.get? 6 = some (checksum (packFromIndices (idxs.take 6)))) := by
  unfold decode_checkin_code
  by_cases h7 : (normalize s).length = 7
  · cases hai : alphabetIndices (normalize s) with
    | none =>
      have hnone : ¬ ∀ c ∈ normalize s, c ∈ ALPHABET := by
        rw [← alphabetIndices_exists_iff]
        simp [hai]
      simp [hai, hnone, h7]
    | some idxs =>
      have hall : ∀ c ∈ normalize s, c ∈ ALPHABET := by
        rw [← alphabetIndices_exists_iff]
        exact ⟨idxs, hai⟩
      have hlen : idxs.length = 7 := by rw [alphabetIndices_length _ _ hai, h7]
      obtain ⟨k, hk⟩ : ∃ k, idxs.get? 6 = some k := by
        cases hg : idxs.get? 6 with
        | none =>
          rw [List.get?_eq_none] at hg
          omega
        | some k => exact ⟨k, rfl⟩
      rw [List.get?_eq_getElem?] at hk
      by_cases hc : checksum (packFromIndices (idxs.take 6)) = k
      · subst hc
        simp [hai, hk, h7]
        exact hall
      · simp [hai, hk, h7, hall]
        exact ⟨fun h => absurd h hc, fun h => h.2.symm⟩
  · simp [h7]

/-- Claim C7. `validate_checkin_code` short-circuits to invalid whenever the
decode is invalid; on a successful decode it returns the decoded fields
exactly when every supplied expected id agrees with the decoded field after
reduction mod `2 ^ 15` — so an expected id that matches only in its low 15
bits (such as `7 + 32768` against decoded instance 7) validates — and in
every other case it returns invalid rather than some other value. -/
theorem c7_validate_short_circuit_and_mod_compare (code : List Char)
    (expected_instance_id expected_person_id : Option Nat) :
    (decode_checkin_code code = none →
      validate_checkin_code code expected_instance_id expected_person_id = none) ∧
    ∀ d, decode_checkin_code code = some d →
      ((validate_checkin_code code expected_instance_id expected_person_id = some d ↔
          (∀ x, expected_instance_id = some x → x % 32768 = d.instance_id) ∧
          (∀ x, expected_person_id = some x → x % 32768 = d.person_id)) ∧
        (validate_checkin_code code expected_instance_id expected_person_id = some d ∨
         validate_checkin_code code expected_instance_id expected_person_id = none)) := by
  constructor
  · intro h
    simp [validate_checkin_code, h]
  · intro d hd
    rcases expected_instance_id with _ | x
    · rcases expected_person_id with _ | y
      · simp [validate_checkin_code, hd, Option.any]
      · by_cases hy : y % 32768 = d.person_id <;>
          simp [validate_checkin_code, hd, Option.any, hy]
    · rcases expected_person_id with _ | y
      · by_cases hx : x % 32768 = d.instance_id <;>
          simp [validate_checkin_code, hd, Option.any, hx]
      · by_cases hx : x % 32768 = d.instance_id <;>
          by_cases hy : y % 32768 = d.person_id <;>
          simp [validate_checkin_code, hd, Option.any, hx, hy]

/-- Claim C9. Every encoded code is 8 characters shaped `XXX-XXXX`: a
hyphen at index 3 and all 7 remaining characters drawn from the 31-symbol
alphabet; and the code depends only on `person_id mod 2 ^ 15` and
`instance_id mod 2 ^ 15` (the encoder is a function, hence deterministic). -/
theorem c9_encode_shape_and_mod_determinism (pid iid : Nat) :
    (encode_checkin_code pid iid).length = 8 ∧
    (encode_checkin_code pid iid).get? 3 = some '-' ∧
    (∀ i c, i < 8 → i ≠ 3 → (encode_checkin_code pid iid).get? i = some c →
      c ∈ ALPHABET) ∧
    encode_checkin_code pid iid = encode_checkin_code (pid % 32768) (iid % 32768) := by
  obtain ⟨a, b, c, d, e, f, g, hsym⟩ :=
    list_eq_seven (codeSymbols pid iid) (codeSymbols_length pid iid)
  have hmem := codeSymbols_mem pid iid
  rw [hsym] at hmem
  have henc : encode_checkin_code pid iid = [a, b, c, '-', d, e, f, g] := by
    simp [encode_checkin_code, hsym]
  refine ⟨?_, ?_, ?_, ?_⟩
  · rw [henc]; rfl
  · rw [henc]; rfl
  · intro i ch hi hne hget
    rw [henc] at hget
    interval_cases i <;> simp_all
  · have hp : packIds pid iid = packIds (pid % 32768) (iid % 32768) := by
      unfold packIds
      omega
    simp [encode_checkin_code, codeSymbols, hp]

set_option maxRecDepth 40000 in
/-- Claim C8, counterexample. The per-code 30/31 detection bound fails: the
valid code `222-257A` (person 98, instance 0) has 210 single-symbol
mutations, of which only 203 are rejected — 7 mutated strings still decode —
and `203 / 210 < 30 / 31` (`30 * 210 = 6300 > 6293 = 31 * 203`). -/
theorem c8_counterexample_code_with_low_detection :
    decode_checkin_code (encode_checkin_code 98 0) = some ⟨0, 98⟩ ∧
    (mutationsOf (encode_checkin_code 98 0)).length = 210 ∧
    ((mutationsOf (encode_checkin_code 98 0)).filter
        (fun m => decide (decode_checkin_code m = none))).length = 203 ∧
    ¬ 30 * (mutationsOf (encode_checkin_code 98 0)).length ≤
        31 * ((mutationsOf (encode_checkin_code 98 0)).filter
          (fun m => decide (decode_checkin_code m = none))).length := by decide

/-- Claim C8, amended. The claimed at-least-30/31 per-code detection rate
fails for some valid codes (see the counterexample); what remains true of
every valid code is the residual guarantee that every mutation of the
checksum symbol — index 7 of the `XXX-XXXX` display — to a different
alphabet symbol is detected: decoding the mutated string returns invalid. -/
theorem c8_amended_checksum_symbol_mutation_detected (pid iid : Nat)
    (hvalid : decode_checkin_code (encode_checkin_code pid iid) ≠ none)
    (c : Char) (hc : c ∈ ALPHABET)
    (hne : c ≠ (encode_checkin_code pid iid).getD 7 ' ') :
    decode_checkin_code ((encode_checkin_code pid iid).set 7 c) = none := by
  have hck : checksum (packIds pid iid % 31 ^ 6) = checksum (packIds pid iid) := by
    by_contra hcontra
    rw [decode_encode_eq, if_neg hcontra] at hvalid
    exact hvalid rfl
  have hsplit : codeSymbols pid iid =
      ((digitsLSB 6 (packIds pid iid)).reverse).map (fun i => ALPHABET.getD i ' ') ++
        [ALPHABET.getD (checksum (packIds pid iid)) ' '] := by
    simp [codeSymbols]
  obtain ⟨s0, s1, s2, s3, s4, s5, s6, hsym⟩ :=
    list_eq_seven (codeSymbols pid iid) (codeSymbols_length pid iid)
  have hparts : [s0, s1, s2, s3, s4, s5] ++ [s6] =
      ((digitsLSB 6 (packIds pid iid)).reverse).map (fun i => ALPHABET.getD i ' ') ++
        [ALPHABET.getD (checksum (packIds pid iid)) ' '] :=
    hsym.symm.trans hsplit
  have hDlen :
      (((digitsLSB 6 (packIds pid iid)).reverse).map (fun i => ALPHABET.getD i ' ')).length
        = 6 := by
    simp [digitsLSB_length]
  obtain ⟨hfront, hback⟩ := List.append_inj hparts (by simp [hDlen, digitsLSB_length])
  have hs6 : s6 = ALPHABET.getD (checksum (packIds pid iid)) ' ' := by
    simpa using hback
  have henc : encode_checkin_code pid iid = [s0, s1, s2, '-', s3, s4, s5, s6] := by
    simp [encode_checkin_code, hsym]
  have hgetD7 : (encode_checkin_code pid iid).getD 7 ' ' = s6 := by
    rw [henc]; rfl
  have hset : (encode_checkin_code pid iid).set 7 c = [s0, s1, s2, '-', s3, s4, s5, c] := by
    rw [henc]; rfl
  have hmem := codeSymbols_mem pid iid
  rw [hsym] at hmem
  have hmem' : ∀ x ∈ [s0, s1, s2, s3, s4, s5, c], x ∈ ALPHABET := by
    intro x hx
    simp only [List.mem_cons, List.not_mem_nil, or_false] at hx
    rcases hx with rfl | rfl | rfl | rfl | rfl | rfl | rfl
    · exact hmem _ (by simp)
    · exact hmem _ (by simp)
    · exact hmem _ (by simp)
    · exact hmem _ (by simp)
    · exact hmem _ (by simp)
    · exact hmem _ (by simp)
    · exact hc
  have hnorm : normalize ((encode_checkin_code pid iid).set 7 c) =
      [s0, s1, s2, s3, s4, s5, c] := by
    rw [hset]
    exact normalize_of_symbols [s0, s1, s2, s3, s4, s5, c] hmem'
  obtain ⟨ic, hic⟩ := charIndex_isSome_of_mem ALPHABET c hc
  have hic_ne : ic ≠ checksum (packIds pid iid) := by
    intro hEq
    apply hne
    rw [hgetD7, hs6, ← hEq]
    exact (charIndex_getD ALPHABET c ic hic).symm
  have hidx : alphabetIndices [s0, s1, s2, s3, s4, s5, c] =
      some ((digitsLSB 6 (packIds pid iid)).reverse ++ [ic]) := by
    have h1 := alphabetIndices_map_getD ((digitsLSB 6 (packIds pid iid)).reverse)
      (fun k hk => digitsLSB_lt 6 _ k (List.mem_reverse.mp hk))
    have h2 : alphabetIndices [c] = some [ic] := by simp [alphabetIndices, hic]
    have happ := alphabetIndices_append _ [c] _ [ic] h1 h2
    rw [show [s0, s1, s2, s3, s4, s5, c] = [s0, s1, s2, s3, s4, s5] ++ [c] from rfl, hfront]
    exact happ
  have hrev6 : (digitsLSB 6 (packIds pid iid)).reverse.length = 6 := by
    simp [digitsLSB_length]
  have hget : ((digitsLSB 6 (packIds pid iid)).reverse ++ [ic])[6]? = some ic := by
    rw [← hrev6]
    exact List.getElem?_concat_length _ _
  have htake : ((digitsLSB 6 (packIds pid iid)).reverse ++ [ic]).take 6 =
      (digitsLSB 6 (packIds pid iid)).reverse := by
    rw [← hrev6]
    exact List.take_left _ _
  unfold decode_checkin_code
  simp [hnorm, hidx, hget, htake, packFromIndices_reverse_digits]
  rw [show (887503681 : Nat) = 31 ^ 6 from by norm_num, hck]
  exact Ne.symm hic_ne

/-- Witness for the amended C8 theorem: mutating the checksum symbol of the
valid code `222-257A` into `3` is rejected. -/
theorem c8_amended_witness :
    decode_checkin_code ((encode_checkin_code 98 0).set 7 '3') = none :=
  c8_amended_checksum_symbol_mutation_detected 98 0 (by decide) '3' (by decide) (by decide)

/-! ## Batch check-in lemmas -/

theorem gatherResults_length (gw : Nat → AddResult) :
    ∀ (ps : List CheckinPerson) (i : Nat), (gatherResults gw i ps).length = ps.length := by
  intro ps
  induction ps with
  | nil => intro i; rfl
  | cons p ps ih => intro i; simp [gatherResults, ih]

theorem gatherResults_get? (gw : Nat → AddResult) :
    ∀ (ps : List CheckinPerson) (i j : Nat),
      (gatherResults gw i ps).get? j =
        (ps.get? j).map (fun p => checkinOne p (gw (i + j))) := by
  intro ps
  induction ps with
  | nil => intro i j; simp [gatherResults]
  | cons p ps ih =>
    intro i j
    cases j with
    | zero => simp [gatherResults]
    | succ j =>
      simp only [gatherResults, List.get?_cons_succ]
      rw [ih (i + 1) j, show i + 1 + j = i + (j + 1) from by omega]

theorem gatherResults_get0 (gw : Nat → AddResult) (ps : List CheckinPerson) (j : Nat) :
    (gatherResults gw 0 ps).get? j = (ps.get? j).map (fun p => checkinOne p (gw j)) := by
  simpa using gatherResults_get? gw ps 0 j

/-- Membership in the collected set of successful ids is existence of a
successful outcome carrying that id. -/
theorem successful_ids_contains (results : List CheckinOutcome) (pid : String) :
    (((results.filter (fun r => r.success)).map (fun r => r.person_id)).contains pid) =
      results.any (fun r => r.success && r.person_id == pid) := by
  rw [Bool.eq_iff_iff]
  constructor
  · intro hmem
    rw [List.any_eq_true]
    have hp : pid ∈ (results.filter (fun r => r.success)).map (fun r => r.person_id) := by
      simpa using hmem
    simp only [List.mem_map, List.mem_filter] at hp
    obtain ⟨r, ⟨hr, hs⟩, hpid⟩ := hp
    exact ⟨r, hr, by simp [hs, hpid]⟩
  · intro hany
    rw [List.any_eq_true] at hany
    obtain ⟨r, hr, hrp⟩ := hany
    have hs : r.success = true ∧ r.person_id = pid := by simpa using hrp
    have hp : pid ∈ (results.filter (fun r => r.success)).map (fun r => r.person_id) := by
      simp only [List.mem_map, List.mem_filter]
      exact ⟨r, ⟨hr, hs.1⟩, hs.2⟩
    simpa using hp

/-- The response of an accepted batch, written out. -/
theorem batch_checkin_ok (req : BatchCheckinRequest) (gw : Nat → AddResult)
    (pr : List LabelData → Bool) (h : ¬ req.people.length > MAX_BATCH_SIZE) :
    batch_checkin req gw pr = .ok ⟨gatherResults gw 0 req.people,
      if (if (labelsToPrint req (gatherResults gw 0 req.people)).isEmpty then false
          else pr (labelsToPrint req (gatherResults gw 0 req.people)))
      then (labelsToPrint req (gatherResults gw 0 req.people)).length else 0⟩ := by
  unfold batch_checkin
  rw [if_neg h]

/-! ## The claims about the batch check-in endpoint -/

/-- Claim C3. `batch_checkin` raises (HTTP 400) exactly for an oversized
batch — more than `MAX_BATCH_SIZE = 15` people — and the rejection is
decided before any remote call: the rejected result is one and the same for
every gateway and printer behaviour. Every batch of at most 15 people
returns normally, whatever the per-person calls do. -/
theorem c3_oversized_batch_rejected_before_any_call (req : BatchCheckinRequest)
    (gw gw' : Nat → AddResult) (pr pr' : List LabelData → Bool) :
    (req.people.length > MAX_BATCH_SIZE →
      batch_checkin req gw pr = .error ⟨400, "Batch size " ++ toString req.people.length ++
        " exceeds max of " ++ toString MAX_BATCH_SIZE⟩ ∧
      batch_checkin req gw pr = batch_checkin req gw' pr') ∧
    (req.people.length ≤ MAX_BATCH_SIZE →
      ∃ resp, batch_checkin req gw pr = .ok resp) := by
  constructor
  · intro h
    constructor
    · simp [batch_checkin, h]
    · simp [batch_checkin, h]
  · intro h
    have hng : ¬ req.people.length > MAX_BATCH_SIZE := by
      simp only [MAX_BATCH_SIZE] at h ⊢
      omega
    unfold batch_checkin
    rw [if_neg hng]
    exact ⟨_, rfl⟩

/-- Claim C4. For an accepted batch the result list has exactly one outcome
per requested person, the j-th outcome belonging to `people[j]` (the
embedding of `asyncio.gather` keeps input order regardless of completion
order): it carries that person's `person_id`, succeeds exactly when that
person's call returned `True`, records `"Failed"` when the call returned a
falsy value, and records the exception message when the call raised. -/
theorem c4_outcomes_in_input_order (req : BatchCheckinRequest) (gw : Nat → AddResult)
    (pr : List LabelData → Bool) (h : req.people.length ≤ MAX_BATCH_SIZE) :
    ∃ resp, batch_checkin req gw pr = .ok resp ∧
      resp.results.length = req.people.length ∧
      ∀ j, j < req.people.length →
        ∃ p r, req.people.get? j = some p ∧ resp.results.get? j = some r ∧
          r.person_id = p.person_id ∧
          (r.success = true ↔ gw j = .ok true) ∧
          (gw j = .ok false → r.error = some "Failed") ∧
          (∀ e, gw j = .exn e → r.error = some e) := by
  have hng : ¬ req.people.length > MAX_BATCH_SIZE := by
    simp only [MAX_BATCH_SIZE] at h ⊢
    omega
  refine ⟨_, batch_checkin_ok req gw pr hng, ?_, ?_⟩
  · simp [gatherResults_length]
  · intro j hj
    obtain ⟨p, hp⟩ : ∃ p, req.people.get? j = some p := by
      cases hg : req.people.get? j with
      | none =>
        rw [List.get?_eq_none] at hg
        omega
      | some p => exact ⟨p, rfl⟩
    refine ⟨p, checkinOne p (gw j), hp, ?_, ?_, ?_, ?_, ?_⟩
    · show (gatherResults gw 0 req.people).get? j = some (checkinOne p (gw j))
      rw [gatherResults_get0, hp]
      rfl
    · cases hgw : gw j with
      | ok b => cases b <;> rfl
      | exn e => rfl
    · cases hgw : gw j with
      | ok b => cases b <;> simp [checkinOne, hgw]
      | exn e => simp [checkinOne, hgw]
    · intro hfb
      rw [hfb]
      rfl
    · intro e he
      rw [he]
      rfl

/-- Claim C5. With `print_labels` set, the label list is exactly: one label
per entry of `people` whose `person_id` has some successful outcome
(selection is by person identity, via the set of successful ids, not by the
entry's own position), in input order, with that entry's `name` and `code`,
followed by `extra_labels` verbatim and regardless of outcomes; with
`print_labels` unset, no label list is built. -/
theorem c5_labels_from_successful_by_identity (req : BatchCheckinRequest)
    (gw : Nat → AddResult) :
    (req.print_labels = true →
      labelsToPrint req (gatherResults gw 0 req.people) =
        ((req.people.filter (fun p => (gatherResults gw 0 req.people).any
            (fun r => r.success && r.person_id == p.person_id))).map
          (fun p => LabelData.mk p.name p.code "")) ++ req.extra_labels) ∧
    (req.print_labels = false →
      labelsToPrint req (gatherResults gw 0 req.people) = []) := by
  constructor
  · intro hp
    simp only [labelsToPrint, hp, if_true]
    congr 2
    apply List.filter_congr
    intro p _
    exact successful_ids_contains _ _
  · intro hp
    simp [labelsToPrint, hp]

/-- Claim C6. For an accepted batch, `labels_printed` is the size of the
built label list when that list is non-empty and the single print submission
succeeds, and 0 in every other case (empty list — in particular when
`print_labels` is false — or failed submission); and the per-person results
are the same whatever the printer does, so a failed print never alters
them. -/
theorem c6_labels_printed_count (req : BatchCheckinRequest) (gw : Nat → AddResult)
    (pr pr' : List LabelData → Bool) (h : req.people.length ≤ MAX_BATCH_SIZE) :
    ∃ resp resp', batch_checkin req gw pr = .ok resp ∧
      batch_checkin req gw pr' = .ok resp' ∧
      resp.labels_printed =
        (if (labelsToPrint req (gatherResults gw 0 req.people)).isEmpty = false ∧
            pr (labelsToPrint req (gatherResults gw 0 req.people)) = true
         then (labelsToPrint req (gatherResults gw 0 req.people)).length else 0) ∧
      resp.results = resp'.results := by
  have hng : ¬ req.people.length > MAX_BATCH_SIZE := by
    simp only [MAX_BATCH_SIZE] at h ⊢
    omega
  refine ⟨_, _, batch_checkin_ok req gw pr hng, batch_checkin_ok req gw pr' hng, ?_, rfl⟩
  by_cases hie : (labelsToPrint req (gatherResults gw 0 req.people)).isEmpty <;>
    by_cases hpr : pr (labelsToPrint req (gatherResults gw 0 req.people)) <;>
    simp [hie, hpr]

/-- Claim C10 (implicit behaviour). Label gating is by membership of a
`person_id` in the set of successful ids, not by each entry's own outcome:
when two entries share a `person_id` and the call of entry `k` succeeded,
entry `j`'s label is built even if entry `j`'s own call failed. -/
theorem c10_duplicate_person_ids_share_label (req : BatchCheckinRequest)
    (gw : Nat → AddResult) (hp : req.print_labels = true) (j k : Nat)
    (pj pk : CheckinPerson) (hj : req.people.get? j = some pj)
    (hk : req.people.get? k = some pk) (hpid : pj.person_id = pk.person_id)
    (hsucc : gw k = .ok true) :
    LabelData.mk pj.name pj.code "" ∈
      labelsToPrint req (gatherResults gw 0 req.people) := by
  simp only [labelsToPrint, hp, if_true]
  apply List.mem_append_left
  have hr : (gatherResults gw 0 req.people).get? k = some (checkinOne pk (gw k)) := by
    rw [gatherResults_get0, hk]
    rfl
  have hrmem : checkinOne pk (gw k) ∈ gatherResults gw 0 req.people := List.get?_mem hr
  have hcont : (((gatherResults gw 0 req.people).filter (fun r => r.success)).map
      (fun r => r.person_id)).contains pj.person_id = true := by
    rw [successful_ids_contains]
    apply List.any_eq_true.mpr
    exact ⟨checkinOne pk (gw k), hrmem, by simp [checkinOne, hsucc, hpid]⟩
  apply List.mem_map_of_mem
  apply List.mem_filter.mpr
  exact ⟨List.get?_mem hj, hcont⟩

/-! ## Witnesses of the batch claims -/

/-- Witness for C4: a two-person batch where the first call succeeds and the
second raises. -/
theorem c4_witness :
    ∃ resp, batch_checkin reqEx gwEx prEx = .ok resp ∧
      resp.results.length = reqEx.people.length ∧
      ∀ j, j < reqEx.people.length →
        ∃ p r, reqEx.people.get? j = some p ∧ resp.results.get? j = some r ∧
          r.person_id = p.person_id ∧
          (r.success = true ↔ gwEx j = .ok true) ∧
          (gwEx j = .ok false → r.error = some "Failed") ∧
          (∀ e, gwEx j = .exn e → r.error = some e) :=
  c4_outcomes_in_input_order reqEx gwEx prEx (by decide)

/-- Witness for C6: the same batch under a succeeding and under a failing
printer. -/
theorem c6_witness :
    ∃ resp resp', batch_checkin reqEx gwEx prEx = .ok resp ∧
      batch_checkin reqEx gwEx prFail = .ok resp' ∧
      resp.labels_printed =
        (if (labelsToPrint reqEx (gatherResults gwEx 0 reqEx.people)).isEmpty = false ∧
            prEx (labelsToPrint reqEx (gatherResults gwEx 0 reqEx.people)) = true
         then (labelsToPrint reqEx (gatherResults gwEx 0 reqEx.people)).length else 0) ∧
      resp.results = resp'.results :=
  c6_labels_printed_count reqEx gwEx prEx prFail (by decide)

/-- Witness for C10: person 101 appears twice, only the second entry's call
succeeds, and the first entry's label is still built. -/
theorem c10_witness :
    LabelData.mk "Ada" "AAA-AAAA" "" ∈
      labelsToPrint reqDup (gatherResults gwDup 0 reqDup.people) :=
  c10_duplicate_person_ids_share_label reqDup gwDup rfl 0 1
    ⟨"101", "Ada", "AAA-AAAA"⟩ ⟨"101", "Ada", "BBB-BBBB"⟩
    (by decide) (by decide) rfl (by decide)

end BreezeCheckin
